import Mathlib

/-!
# Verification of the iota-playground repository

Shallow embedding of the two binaries:

* `src/send_all/src/main.rs`   — consolidation flow: sums the immediately
  spendable amounts per private key and sends them to a recipient address.
* `src/timed_balance/src/main.rs` — reporting flow: buckets unspent balances
  by unlock timestamp into a shared `BTreeMap` and renders a cumulative table.

Ledger access, key derivation and the price HTTP call are external
collaborators (the `iota_sdk` crate and the CoinGecko API); their results are
supplied as data to the embedded flows.  Amounts (`u64`) and timestamps
(`u32`) are modelled as `Nat`: the spec documents that sums stay far below
2^64 (ledger token supply), so the arithmetic of the flows is exact.
-/

namespace IotaPlayground

/-- Modelled from the spec (§3, §6): the unlock-condition set of a basic
output, as consumed by the two flows through the `iota_sdk` accessors
`timelock()` / `expiration()` (each yielding the condition's timestamp when
present).  Storage-deposit-return outputs are excluded upstream by the node
query filters and never reach the embedded loops, so that condition is not
represented. -/
structure UnlockConditions where
  timelock : Option Nat
  expiration : Option Nat
deriving DecidableEq, Repr

/-- Modelled from the spec (§4.1 edge case): the `iota_sdk` check
`UnlockConditions::is_time_locked(now)` — the output is time-locked while
the time-lock timestamp is strictly greater than `now`. -/
def UnlockConditions.is_time_locked (uc : UnlockConditions) (now : Nat) : Bool :=
  match uc.timelock with
  | some ts => now < ts
  | none => false

/-- Modelled from the spec (§4.1 edge case): the `iota_sdk` check
`UnlockConditions::is_expired(now)` — the output is expired once the
expiration timestamp is less than or equal to `now`. -/
def UnlockConditions.is_expired (uc : UnlockConditions) (now : Nat) : Bool :=
  match uc.expiration with
  | some ts => ts ≤ now
  | none => false

/-- A ledger output as the flows read it: its amount and its (optional)
unlock-condition set (`Output::unlock_conditions()` returns an `Option`). -/
structure Output where
  amount : Nat
  unlock_conditions : Option UnlockConditions
deriving DecidableEq, Repr

/-- Output metadata: the spent flag and the booking timestamp
(`metadata.is_spent()`, `metadata.milestone_timestamp_booked()`). -/
structure OutputMetadata where
  is_spent : Bool
  milestone_timestamp_booked : Nat
deriving DecidableEq, Repr

/-- One element of the `get_outputs` response: an output with its metadata. -/
structure OutputResponse where
  output : Output
  metadata : OutputMetadata
deriving DecidableEq, Repr

/-! ## Consolidation flow (`send_all/src/main.rs`) -/

/-- The `locked` binding of `send_all` main (lines 78–80):
`output.unlock_conditions().map_or(false, |uc| uc.is_time_locked(now))`. -/
def output_locked (now : Nat) (o : Output) : Bool :=
  (o.unlock_conditions.map (fun uc => uc.is_time_locked now)).getD false

/-- The `expired` binding of `send_all` main (lines 81–83):
`output.unlock_conditions().map_or(false, |uc| uc.is_expired(now))`. -/
def output_expired (now : Nat) (o : Output) : Bool :=
  (o.unlock_conditions.map (fun uc => uc.is_expired now)).getD false

/-- One iteration of the `total_amount` accumulation loop of `send_all`
main (lines 70–88): skip spent outputs, then add the amount when the output
is neither time-locked nor expired. -/
def consolidation_step (now : Nat) (acc : Nat) (o : OutputResponse) : Nat :=
  if o.metadata.is_spent then acc
  else if !output_locked now o.output && !output_expired now o.output then
    acc + o.output.amount
  else acc

/-- The `total_amount` computed by `send_all` main for one key's fetched
outputs (lines 69–88). -/
def total_amount (now : Nat) (os : List OutputResponse) : Nat :=
  os.foldl (consolidation_step now) 0

/-- Spec-side predicate (§4.1): an output is immediately spendable iff it is
unspent AND not time-locked as of the reference time AND not expired as of
the reference time. -/
def immediately_spendable (now : Nat) (o : OutputResponse) : Bool :=
  !o.metadata.is_spent && !output_locked now o.output && !output_expired now o.output

theorem consolidation_step_eq (now : Nat) (acc : Nat) (o : OutputResponse) :
    consolidation_step now acc o =
      if immediately_spendable now o then acc + o.output.amount else acc := by
  unfold consolidation_step immediately_spendable
  cases hs : o.metadata.is_spent <;> simp [hs]

theorem foldl_consolidation_step (now : Nat) (os : List OutputResponse) (acc : Nat) :
    os.foldl (consolidation_step now) acc =
      acc + ((os.filter (fun o => immediately_spendable now o)).map
        (fun o => o.output.amount)).sum := by
  induction os generalizing acc with
  | nil => simp
  | cons o rest ih =>
    rw [List.foldl_cons, ih, consolidation_step_eq]
    by_cases h : immediately_spendable now o = true
    · simp [h, Nat.add_assoc]
    · simp [h]

/-- The consolidation total is the sum of the amounts of exactly the
immediately spendable fetched outputs. -/
theorem total_amount_eq_spendable_sum (now : Nat) (os : List OutputResponse) :
    total_amount now os =
      ((os.filter (fun o => immediately_spendable now o)).map
        (fun o => o.output.amount)).sum := by
  rw [total_amount, foldl_consolidation_step, Nat.zero_add]

/-! ## Reporting flow (`timed_balance/src/main.rs`) -/

/-- The `BTreeMap<u32, u64>` of balances, modelled as an association list
whose keys are kept in strictly ascending order (the `BTreeMap` iteration
order). -/
def BalanceMap : Type := List (Nat × Nat)

/-- `*balances.entry(ts).or_insert(0) += amount` on the ordered map:
insert the key with value 0 if absent (at its sorted position), then add
the amount. -/
def bmUpdate : List (Nat × Nat) → Nat → Nat → List (Nat × Nat)
  | [], k, v => [(k, v)]
  | (k', v') :: rest, k, v =>
    if k < k' then (k, v) :: (k', v') :: rest
    else if k = k' then (k', v' + v) :: rest
    else (k', v') :: bmUpdate rest k v

/-- `BTreeMap::get`: look up the value stored for a key. -/
def bmLookup : List (Nat × Nat) → Nat → Option Nat
  | [], _ => none
  | (k', v') :: rest, k => if k = k' then some v' else bmLookup rest k

/-- Look up a key, defaulting to 0 when absent. -/
def bmGetD (m : List (Nat × Nat)) (k : Nat) : Nat :=
  (bmLookup m k).getD 0

/-- The `BTreeMap` key invariant: keys strictly ascending. -/
def bmSorted (m : List (Nat × Nat)) : Prop :=
  m.Pairwise (fun a b => a.1 < b.1)

/-- One iteration of the balance loop of `timed_balance` main (lines
71–94): skip spent outputs and zero amounts, compute the bucket timestamp
(the time-lock timestamp when present, else the booking timestamp), and add
the amount into that bucket. -/
def reporting_step (m : List (Nat × Nat)) (o : OutputResponse) : List (Nat × Nat) :=
  if o.metadata.is_spent then m
  else if o.output.amount == 0 then m
  else
    let timelock := o.output.unlock_conditions.bind (fun uc => uc.timelock)
    let ts := match timelock with
      | some ts => ts
      | none => o.metadata.milestone_timestamp_booked
    bmUpdate m ts o.output.amount

/-- The balance loop of `timed_balance` main over one key's fetched
outputs, starting from the mapping accumulated so far. -/
def process_outputs (m : List (Nat × Nat)) (os : List OutputResponse) : List (Nat × Nat) :=
  os.foldl reporting_step m

/-- The shared `balances` mapping of `timed_balance` main after the key
loop (lines 45–95), when every key unit's external calls succeed: the
per-key output lists are folded into one mapping. -/
def balances_of (kos : List (List OutputResponse)) : List (Nat × Nat) :=
  kos.foldl process_outputs []

/-- Spec-side predicate (§4.1 reporting rule, as frozen in the claim): an
output contributes iff it is unspent and has non-zero amount. -/
def qualifies (o : OutputResponse) : Bool :=
  !o.metadata.is_spent && o.output.amount != 0

/-- Spec-side bucket key (§4.1): the output's time-lock timestamp when a
time-lock condition is present, otherwise its booking timestamp. -/
def bucket_key (o : OutputResponse) : Nat :=
  match o.output.unlock_conditions.bind (fun uc => uc.timelock) with
  | some ts => ts
  | none => o.metadata.milestone_timestamp_booked

theorem reporting_step_eq (m : List (Nat × Nat)) (o : OutputResponse) :
    reporting_step m o =
      if qualifies o then bmUpdate m (bucket_key o) o.output.amount else m := by
  unfold reporting_step qualifies bucket_key
  cases hs : o.metadata.is_spent <;> by_cases ha : o.output.amount = 0 <;> simp [hs, ha]

theorem bmLookup_none_of_forall_lt (t : Nat) :
    ∀ (m : List (Nat × Nat)), (∀ p ∈ m, t < p.1) → bmLookup m t = none := by
  intro m
  induction m with
  | nil => intro _; rfl
  | cons p rest ih =>
    obtain ⟨k', v'⟩ := p
    intro h
    have h1 : t < k' := h (k', v') (by simp)
    have h2 : t ≠ k' := by omega
    rw [bmLookup, if_neg h2]
    exact ih (fun p hp => h p (List.mem_cons_of_mem _ hp))

theorem bmUpdate_sorted_and_fst (k v : Nat) :
    ∀ (m : List (Nat × Nat)), bmSorted m →
      bmSorted (bmUpdate m k v) ∧
        ∀ a ∈ bmUpdate m k v, a.1 = k ∨ a.1 ∈ m.map Prod.fst := by
  intro m
  induction m with
  | nil =>
    intro _
    refine ⟨by simp [bmUpdate, bmSorted], ?_⟩
    intro a ha
    simp [bmUpdate] at ha
    simp [ha]
  | cons p rest ih =>
    obtain ⟨k', v'⟩ := p
    intro hs
    rw [bmSorted, List.pairwise_cons] at hs
    obtain ⟨hlt, hrest⟩ := hs
    by_cases h1 : k < k'
    · constructor
      · rw [bmUpdate, if_pos h1, bmSorted, List.pairwise_cons]
        refine ⟨?_, List.pairwise_cons.mpr ⟨hlt, hrest⟩⟩
        intro b hb
        rcases List.mem_cons.mp hb with rfl | hb
        · exact h1
        · exact Nat.lt_trans h1 (hlt b hb)
      · intro a ha
        rw [bmUpdate, if_pos h1] at ha
        rcases List.mem_cons.mp ha with rfl | ha
        · exact Or.inl rfl
        · right
          exact List.mem_map.mpr ⟨a, ha, rfl⟩
    · by_cases h2 : k = k'
      · subst h2
        constructor
        · rw [bmUpdate, if_neg h1, if_pos rfl, bmSorted, List.pairwise_cons]
          exact ⟨hlt, hrest⟩
        · intro a ha
          rw [bmUpdate, if_neg h1, if_pos rfl] at ha
          rcases List.mem_cons.mp ha with rfl | ha
          · exact Or.inl rfl
          · right
            exact List.mem_map.mpr ⟨a, List.mem_cons_of_mem _ ha, rfl⟩
      · obtain ⟨ihs, ihf⟩ := ih hrest
        constructor
        · rw [bmUpdate, if_neg h1, if_neg h2, bmSorted, List.pairwise_cons]
          refine ⟨?_, ihs⟩
          intro b hb
          rcases ihf b hb with hbk | hbm
          · rw [hbk]; omega
          · obtain ⟨c, hc, hcb⟩ := List.mem_map.mp hbm
            rw [← hcb]
            exact hlt c hc
        · intro a ha
          rw [bmUpdate, if_neg h1, if_neg h2] at ha
          rcases List.mem_cons.mp ha with rfl | ha
          · right; simp
          · rcases ihf a ha with hak | ham
            · exact Or.inl hak
            · right
              rw [List.map_cons]
              exact List.mem_cons_of_mem _ ham

theorem bmSorted_update (m : List (Nat × Nat)) (k v : Nat) (h : bmSorted m) :
    bmSorted (bmUpdate m k v) :=
  (bmUpdate_sorted_and_fst k v m h).1

theorem bmLookup_update (k v t : Nat) :
    ∀ (m : List (Nat × Nat)), bmSorted m →
      bmLookup (bmUpdate m k v) t =
        if t = k then some (bmGetD m k + v) else bmLookup m t := by
  intro m
  induction m with
  | nil =>
    intro _
    by_cases h : t = k <;> simp [bmUpdate, bmLookup, bmGetD, h]
  | cons p rest ih =>
    obtain ⟨k', v'⟩ := p
    intro hs
    rw [bmSorted, List.pairwise_cons] at hs
    obtain ⟨hlt, hrest⟩ := hs
    by_cases h1 : k < k'
    · have hnone : bmLookup ((k', v') :: rest) k = none := by
        apply bmLookup_none_of_forall_lt
        intro p hp
        rcases List.mem_cons.mp hp with rfl | hp
        · exact h1
        · exact Nat.lt_trans h1 (hlt p hp)
      by_cases h2 : t = k
      · have h3 : t ≠ k' := by omega
        rw [bmUpdate, if_pos h1, bmLookup, if_pos h2, if_pos h2, bmGetD, hnone]
        simp
      · rw [bmUpdate, if_pos h1, bmLookup, if_neg h2, if_neg h2]
    · by_cases h2 : k = k'
      · subst h2
        by_cases h3 : t = k
        · rw [bmUpdate, if_neg h1, if_pos rfl, bmLookup, if_pos h3, if_pos h3,
            bmGetD, bmLookup, if_pos rfl]
          simp
        · rw [bmUpdate, if_neg h1, if_pos rfl, bmLookup, if_neg h3, if_neg h3,
            bmLookup, if_neg h3]
      · have ihr := ih hrest
        by_cases h3 : t = k'
        · have h4 : t ≠ k := by omega
          rw [bmUpdate, if_neg h1, if_neg h2, bmLookup, if_pos h3, if_neg h4,
            bmLookup, if_pos h3]
        · rw [bmUpdate, if_neg h1, if_neg h2, bmLookup, if_neg h3, ihr, bmLookup,
            if_neg h3]
          by_cases h4 : t = k
          · have h5 : bmGetD ((k', v') :: rest) k = bmGetD rest k := by
              simp [bmGetD, bmLookup, h2]
            rw [if_pos h4, if_pos h4, h5]
          · rw [if_neg h4, if_neg h4]

theorem bmGetD_update_self (m : List (Nat × Nat)) (k v : Nat) (h : bmSorted m) :
    bmGetD (bmUpdate m k v) k = bmGetD m k + v := by
  rw [bmGetD, bmLookup_update k v k m h, if_pos rfl]
  rfl

theorem bmLookup_update_ne (m : List (Nat × Nat)) (k v t : Nat) (h : bmSorted m)
    (hne : t ≠ k) : bmLookup (bmUpdate m k v) t = bmLookup m t := by
  rw [bmLookup_update k v t m h, if_neg hne]

theorem process_outputs_sorted (os : List OutputResponse) :
    ∀ (m : List (Nat × Nat)), bmSorted m → bmSorted (process_outputs m os) := by
  induction os with
  | nil => intro m h; exact h
  | cons o rest ih =>
    intro m h
    rw [process_outputs, List.foldl_cons, reporting_step_eq]
    by_cases hq : qualifies o = true
    · rw [if_pos hq]
      exact ih _ (bmSorted_update m _ _ h)
    · rw [if_neg hq]
      exact ih m h

/-- The outputs of `os` that land in bucket `t`: unspent, non-zero amount,
and bucket key equal to `t`. -/
def bucket_filter (t : Nat) (os : List OutputResponse) : List OutputResponse :=
  os.filter (fun o => qualifies o && bucket_key o == t)

theorem bmLookup_process (t : Nat) (os : List OutputResponse) :
    ∀ (m : List (Nat × Nat)), bmSorted m →
      bmLookup (process_outputs m os) t =
        if (bucket_filter t os).isEmpty then bmLookup m t
        else some (bmGetD m t +
          ((bucket_filter t os).map (fun o => o.output.amount)).sum) := by
  induction os with
  | nil => intro m _; simp [process_outputs, bucket_filter]
  | cons o rest ih =>
    intro m hm
    rw [process_outputs, List.foldl_cons, reporting_step_eq]
    by_cases hq : qualifies o = true
    · by_cases hb : bucket_key o = t
      · have hfil : bucket_filter t (o :: rest) = o :: bucket_filter t rest := by
          simp [bucket_filter, List.filter_cons, hq, hb]
        rw [if_pos hq, hb]
        have hupd : bmSorted (bmUpdate m t o.output.amount) := bmSorted_update m _ _ hm
        rw [show List.foldl reporting_step (bmUpdate m t o.output.amount) rest
              = process_outputs (bmUpdate m t o.output.amount) rest from rfl,
          ih _ hupd, hfil]
        by_cases he : (bucket_filter t rest).isEmpty
        · rw [if_pos he, List.isEmpty_iff.mp he]
          rw [bmLookup_update _ _ _ _ hm, if_pos rfl]
          simp
        · rw [if_neg he]
          simp only [List.isEmpty_cons, List.map_cons, List.sum_cons, if_neg Bool.false_ne_true]
          rw [bmGetD_update_self m t o.output.amount hm]
          congr 1
          omega
      · have hfil : bucket_filter t (o :: rest) = bucket_filter t rest := by
          simp [bucket_filter, List.filter_cons, hq, hb]
        rw [if_pos hq]
        have hupd : bmSorted (bmUpdate m (bucket_key o) o.output.amount) :=
          bmSorted_update m _ _ hm
        rw [show List.foldl reporting_step (bmUpdate m (bucket_key o) o.output.amount) rest
              = process_outputs (bmUpdate m (bucket_key o) o.output.amount) rest from rfl,
          ih _ hupd, hfil]
        have hne : t ≠ bucket_key o := fun h => hb h.symm
        have hl : bmLookup (bmUpdate m (bucket_key o) o.output.amount) t = bmLookup m t :=
          bmLookup_update_ne m _ _ t hm hne
        have hg : bmGetD (bmUpdate m (bucket_key o) o.output.amount) t = bmGetD m t := by
          rw [bmGetD, hl, bmGetD]
        rw [hl, hg]
    · have hfil : bucket_filter t (o :: rest) = bucket_filter t rest := by
        simp [bucket_filter, List.filter_cons, hq]
      rw [if_neg hq,
        show List.foldl reporting_step m rest = process_outputs m rest from rfl,
        ih m hm, hfil]

theorem balances_of_eq_join (kos : List (List OutputResponse)) :
    balances_of kos = process_outputs [] kos.flatten := by
  rw [balances_of, process_outputs, List.foldl_flatten]
  rfl

theorem balances_of_sorted (kos : List (List OutputResponse)) :
    bmSorted (balances_of kos) := by
  rw [balances_of_eq_join]
  exact process_outputs_sorted _ [] (by simp [bmSorted])

theorem bmLookup_balances_of (kos : List (List OutputResponse)) (t : Nat) :
    bmLookup (balances_of kos) t =
      if (bucket_filter t kos.flatten).isEmpty then none
      else some (((bucket_filter t kos.flatten).map (fun o => o.output.amount)).sum) := by
  rw [balances_of_eq_join, bmLookup_process t _ [] (by simp [bmSorted])]
  by_cases he : (bucket_filter t kos.flatten).isEmpty
  · rw [if_pos he, if_pos he]; rfl
  · rw [if_neg he, if_neg he, bmGetD]
    simp [bmLookup]

theorem bm_ext : ∀ (m m' : List (Nat × Nat)), bmSorted m → bmSorted m' →
    (∀ t, bmLookup m t = bmLookup m' t) → m = m' := by
  intro m
  induction m with
  | nil =>
    intro m' _ _ h
    cases m' with
    | nil => rfl
    | cons q rest' =>
      exfalso
      obtain ⟨k', v'⟩ := q
      have h1 := h k'
      rw [bmLookup, bmLookup, if_pos rfl] at h1
      exact Option.noConfusion h1
  | cons p rest ih =>
    intro m' hs hs' h
    obtain ⟨k, v⟩ := p
    rw [bmSorted, List.pairwise_cons] at hs
    obtain ⟨hlt, hrest⟩ := hs
    cases m' with
    | nil =>
      exfalso
      have h1 := h k
      rw [bmLookup, bmLookup, if_pos rfl] at h1
      exact Option.noConfusion h1
    | cons q rest' =>
      obtain ⟨k', v'⟩ := q
      rw [bmSorted, List.pairwise_cons] at hs'
      obtain ⟨hlt', hrest'⟩ := hs'
      have hkk : k = k' := by
        by_contra hne
        rcases Nat.lt_or_ge k k' with h2 | h2
        · have h1 := h k
          rw [bmLookup, if_pos rfl] at h1
          have h3 : bmLookup ((k', v') :: rest') k = none := by
            apply bmLookup_none_of_forall_lt
            intro q hq
            rcases List.mem_cons.mp hq with rfl | hq
            · exact h2
            · exact Nat.lt_trans h2 (hlt' q hq)
          rw [h3] at h1
          exact Option.noConfusion h1
        · have h2' : k' < k := Nat.lt_of_le_of_ne h2 (fun e => hne e.symm)
          have h1 := h k'
          rw [bmLookup, bmLookup, if_pos rfl, if_neg (by omega : k' ≠ k)] at h1
          have h3 : bmLookup rest k' = none := by
            apply bmLookup_none_of_forall_lt
            intro q hq
            exact Nat.lt_trans h2' (hlt q hq)
          rw [h3] at h1
          exact Option.noConfusion h1
      subst hkk
      have hv : v = v' := by
        have h1 := h k
        rw [bmLookup, if_pos rfl, bmLookup, if_pos rfl] at h1
        exact Option.some.inj h1
      subst hv
      congr 1
      apply ih rest' hrest hrest'
      intro t
      by_cases ht : t = k
      · subst ht
        have e1 : bmLookup rest t = none :=
          bmLookup_none_of_forall_lt t rest (fun q hq => hlt q hq)
        have e2 : bmLookup rest' t = none :=
          bmLookup_none_of_forall_lt t rest' (fun q hq => hlt' q hq)
        rw [e1, e2]
      · have h1 := h t
        rw [bmLookup, if_neg ht, bmLookup, if_neg ht] at h1
        exact h1

theorem process_outputs_perm (l l' : List OutputResponse) (h : l.Perm l') :
    process_outputs [] l = process_outputs [] l' := by
  have hnil : bmSorted ([] : List (Nat × Nat)) := by simp [bmSorted]
  apply bm_ext _ _ (process_outputs_sorted l [] hnil) (process_outputs_sorted l' [] hnil)
  intro t
  rw [bmLookup_process t l [] hnil, bmLookup_process t l' [] hnil]
  have hperm : (bucket_filter t l).Perm (bucket_filter t l') :=
    h.filter (fun o => qualifies o && bucket_key o == t)
  have hemp : (bucket_filter t l).isEmpty = (bucket_filter t l').isEmpty := by
    cases he : (bucket_filter t l).isEmpty
    · cases he' : (bucket_filter t l').isEmpty
      · rfl
      · rw [List.isEmpty_iff.mp he'] at hperm
        rw [List.isEmpty_iff.mp (by simp [hperm.eq_nil] : (bucket_filter t l).isEmpty = true)] at he
        exact absurd he (by simp [hperm.eq_nil])
    · cases he' : (bucket_filter t l').isEmpty
      · rw [List.isEmpty_iff.mp he] at hperm
        have := hperm.symm.eq_nil
        rw [this] at he'
        exact absurd he' (by simp)
      · rfl
  have hsum : ((bucket_filter t l).map (fun o => o.output.amount)).sum
      = ((bucket_filter t l').map (fun o => o.output.amount)).sum :=
    (hperm.map (fun o => o.output.amount)).sum_eq
  rw [hemp, hsum]

/-! ## Cumulative table (`print_balances`, lines 145–159) -/

/-- The row data of `print_balances`: iterate the `BTreeMap` in ascending
key order carrying `cumulative += amount`, producing one
(timestamp, amount, cumulative) row per bucket.  (The rendered strings also
show the fiat values `amount * price` — pure formatting of these numbers.) -/
def with_cumulative (l : List (Nat × Nat)) : List (Nat × Nat × Nat) :=
  (l.foldl (fun acc p => (acc.1 + p.2, acc.2 ++ [(p.1, p.2, acc.1 + p.2)]))
    ((0 : Nat), ([] : List (Nat × Nat × Nat)))).2

/-- Recursive form of the cumulative row construction, starting from a
running sum `c`. -/
def cumul_from (c : Nat) : List (Nat × Nat) → List (Nat × Nat × Nat)
  | [] => []
  | p :: rest => (p.1, p.2, c + p.2) :: cumul_from (c + p.2) rest

theorem foldl_cumul (l : List (Nat × Nat)) :
    ∀ (c : Nat) (rows : List (Nat × Nat × Nat)),
      (l.foldl (fun acc p => (acc.1 + p.2, acc.2 ++ [(p.1, p.2, acc.1 + p.2)])) (c, rows)).2
        = rows ++ cumul_from c l := by
  induction l with
  | nil => intro c rows; simp [cumul_from]
  | cons p rest ih =>
    intro c rows
    rw [List.foldl_cons, ih, cumul_from]
    simp

theorem with_cumulative_eq (l : List (Nat × Nat)) :
    with_cumulative l = cumul_from 0 l := by
  rw [with_cumulative, foldl_cumul]
  rfl

theorem cumul_from_map_getD (l : List (Nat × Nat)) :
    ∀ (c k : Nat),
      ((cumul_from c l).map (fun r => r.2.2)).getD k (c + (l.map (fun p => p.2)).sum)
        = c + ((l.take (k + 1)).map (fun p => p.2)).sum := by
  induction l with
  | nil => intro c k; simp [cumul_from]
  | cons p rest ih =>
    intro c k
    cases k with
    | zero => simp [cumul_from]
    | succ k =>
      rw [cumul_from, List.map_cons, List.getD_cons_succ]
      simp only [List.map_cons, List.sum_cons]
      rw [← Nat.add_assoc, ih (c + p.2) k, List.take_succ_cons, List.map_cons,
        List.sum_cons, Nat.add_assoc]

theorem cumul_from_chain (l : List (Nat × Nat)) :
    ∀ c : Nat, ((cumul_from c l).map (fun r => r.2.2)).Chain' (· ≤ ·)
      ∧ ∀ x ∈ (cumul_from c l).map (fun r => r.2.2), c ≤ x := by
  induction l with
  | nil => intro c; simp [cumul_from]
  | cons p rest ih =>
    intro c
    obtain ⟨hc, hb⟩ := ih (c + p.2)
    constructor
    · rw [cumul_from, List.map_cons]
      refine List.chain'_cons'.mpr ⟨?_, hc⟩
      intro y hy
      exact hb y (List.mem_of_mem_head? hy)
    · intro x hx
      rw [cumul_from, List.map_cons] at hx
      rcases List.mem_cons.mp hx with rfl | hx
      · exact Nat.le_add_right c p.2
      · exact Nat.le_trans (Nat.le_add_right c p.2) (hb x hx)

theorem cumul_from_getLastD (l : List (Nat × Nat)) :
    ∀ (c d : Nat), ((cumul_from c l).map (fun r => r.2.2)).getLastD d
      = if l.isEmpty then d else c + (l.map (fun p => p.2)).sum := by
  induction l with
  | nil => intro c d; simp [cumul_from]
  | cons p rest ih =>
    intro c d
    rw [cumul_from, List.map_cons, List.getLastD_cons, ih (c + p.2) (c + p.2)]
    by_cases h : rest.isEmpty
    · rw [if_pos h, List.isEmpty_iff.mp h]
      simp
    · rw [if_neg h]
      simp only [List.isEmpty_cons, List.map_cons, List.sum_cons,
        if_neg Bool.false_ne_true]
      omega

/-! ## Consolidation orchestration (`send_all` main, lines 45–115) -/

/-- One stdout line of the `send_all` binary. -/
inductive Line where
  | no_funds (address : String)
  | sending (amount : Nat) (source recipient : String)
  | block_sent (block_id : String)
  | block_included (block_id : String)
deriving DecidableEq, Repr

/-- The external-collaborator results consumed while consolidating one key
unit: the derived address, the fetched outputs (unspent basic outputs of
the address without storage-deposit-return, with metadata), the result of
building and posting the consolidating block (`finish_output` /
`build_block`; ok yields the block id), and the result of
`retry_until_included`. -/
structure ConsolidationKey where
  address : String
  outputs : List OutputResponse
  block_result : Except String String
  confirm_result : Except String Unit

/-- The per-key consolidation logic of `send_all` main after fetching
(lines 69–114): aggregate the spendable total; when it is zero print the
no-funds notice and do nothing else for this key; otherwise print the
sending notice, build and post the consolidating block (printing its id on
success), and await inclusion (printing the id again).  Returns the
printed lines, the error aborting the run (if any), and whether the flow
proceeded to transaction construction and submission. -/
def run_key (now : Nat) (recipient : String) (kd : ConsolidationKey) :
    List Line × Option String × Bool :=
  let total := total_amount now kd.outputs
  if total = 0 then ([Line.no_funds kd.address], none, false)
  else
    match kd.block_result with
    | Except.error e => ([Line.sending total kd.address recipient], some e, true)
    | Except.ok bid =>
      match kd.confirm_result with
      | Except.error e =>
        ([Line.sending total kd.address recipient, Line.block_sent bid], some e, true)
      | Except.ok _ =>
        ([Line.sending total kd.address recipient, Line.block_sent bid,
          Line.block_included bid], none, true)

/-- The key loop of `send_all` main: the key units' collaborator results in
order; `?` propagation stops the run at the first error (a malformed key
aborts before any line for that key is printed). -/
def send_all_run (now : Nat) (recipient : String) :
    List (Except String ConsolidationKey) → List Line × Option String
  | [] => ([], none)
  | Except.error e :: _ => ([], some e)
  | Except.ok kd :: rest =>
    match run_key now recipient kd with
    | (lines, some e, _) => (lines, some e)
    | (lines, none, _) =>
      let r := send_all_run now recipient rest
      (lines ++ r.1, r.2)

/-! ## Reporting orchestration (`timed_balance` main and `get_price`) -/

/-- The key loop of `timed_balance` main (lines 46–95): each key unit's
external calls (key decode, address derivation, output fetch) either fail
or yield the fetched output list; `?` propagation aborts the loop at the
first failure, otherwise the outputs are folded into the shared mapping. -/
def process_keys : List (Except String (List OutputResponse)) → List (Nat × Nat) →
    Except String (List (Nat × Nat))
  | [], m => Except.ok m
  | Except.error e :: _, _ => Except.error e
  | Except.ok os :: rest, m => process_keys rest (process_outputs m os)

/-- The apostrophe character of the `get_price` error message. -/
def squote : String := String.singleton (Char.ofNat 39)

/-- `get_price` (lines 107–131): look up the requested currency code in the
fetched CoinGecko rate table; an absent code fails with the
"price in (quoted currency) not found" error. -/
def get_price (rates : List (String × Float)) (vs_currency : String) :
    Except String Float :=
  match rates.lookup vs_currency with
  | some p => Except.ok p
  | none => Except.error ("price in " ++ squote ++ vs_currency ++ squote ++ " not found")

/-- `timed_balance` main end-to-end (lines 35–103): fold all key units into
the shared mapping, fetch the price, and produce the cumulative table rows
that `print_balances` renders; any failure aborts before the table is
produced. -/
def timed_balance_run (keys : List (Except String (List OutputResponse)))
    (rates : List (String × Float)) (currency : String) :
    Except String (List (Nat × Nat × Nat) × Float) :=
  match process_keys keys [] with
  | Except.error e => Except.error e
  | Except.ok bal =>
    match get_price rates currency with
    | Except.error e => Except.error e
    | Except.ok price => Except.ok (with_cumulative bal, price)

/-! ## Concrete inputs used by the witnesses and counterexamples -/

/-- An unspent output of 5,000,000 base units with no unlock-condition
set, booked at timestamp 1690000000. -/
def exOutput : OutputResponse :=
  { output := { amount := 5000000, unlock_conditions := none },
    metadata := { is_spent := false, milestone_timestamp_booked := 1690000000 } }

/-- An unspent output of 2,000,000 base units time-locked until timestamp
1700000000. -/
def exOutputLocked : OutputResponse :=
  { output :=
      { amount := 2000000,
        unlock_conditions := some { timelock := some 1700000000, expiration := none } },
    metadata := { is_spent := false, milestone_timestamp_booked := 1650000000 } }

/-- A key unit owning no outputs at all. -/
def ex0Key : ConsolidationKey :=
  { address := "addr", outputs := [],
    block_result := Except.ok "blk", confirm_result := Except.ok () }

/-- A key unit holding one unspent, unlocked 5,000,000-unit output whose
consolidating block is posted and confirmed successfully. -/
def ex9Key : ConsolidationKey :=
  { address := "addr", outputs := [exOutput],
    block_result := Except.ok "blk", confirm_result := Except.ok () }

/-- Like `ex9Key`, but confirmation polling exhausts its retry budget. -/
def ex9KeyTO : ConsolidationKey :=
  { address := "addr", outputs := [exOutput],
    block_result := Except.ok "blk", confirm_result := Except.error "timeout" }

/-- The unlock-condition set with both timestamps at 100. -/
def ex8UC : UnlockConditions := { timelock := some 100, expiration := some 100 }

/-- An output carrying `ex8UC`. -/
def ex8Output : Output := { amount := 7, unlock_conditions := some ex8UC }

/-! ## The claims -/

/-- C1: In the consolidation flow, for every fetched output, its amount is
included in the aggregated total if and only if the output is unspent AND
not time-locked as of the single reference time AND not expired as of that
same reference time; spent outputs are never counted.  Formally: the
aggregated total is exactly the sum of the amounts of the fetched outputs
that satisfy the spec's "immediately spendable" predicate (unspent, not
time-locked, not expired); an output failing any conjunct — in particular a
spent one — contributes nothing. -/
theorem consolidation_total_spec (now : Nat) (os : List OutputResponse) :
    total_amount now os =
      ((os.filter (fun o => immediately_spendable now o)).map
        (fun o => o.output.amount)).sum :=
  total_amount_eq_spendable_sum now os

/-- C2: In the reporting flow, for every fetched output, it contributes to
the balance mapping if and only if it is unspent and has non-zero amount;
its bucket key is the output's time-lock timestamp when a time-lock
condition is present, otherwise the output's booking timestamp; and
contributions from all key units are merged into one shared mapping keyed
only by timestamp.  Formally: for every timestamp `t`, the mapping built
across all key units holds a bucket at `t` exactly when some fetched output
of some key unit is unspent with non-zero amount and has bucket key `t`,
and the bucket's value is the sum of exactly those outputs' amounts. -/
theorem reporting_balances_spec (kos : List (List OutputResponse)) (t : Nat) :
    bmLookup (balances_of kos) t =
      if (bucket_filter t kos.flatten).isEmpty then none
      else some (((bucket_filter t kos.flatten).map (fun o => o.output.amount)).sum) :=
  bmLookup_balances_of kos t

/-- C3: In the consolidation flow, when the aggregated total for a key is
zero, a "nothing to send" notice is emitted for that key, no transaction
is built or submitted for it, and processing moves on to the next key
unit; a zero total is not an error (the per-key error slot stays empty and
the run continues with the remaining key units' lines and outcome). -/
theorem zero_total_skips (now : Nat) (recipient : String) (kd : ConsolidationKey)
    (rest : List (Except String ConsolidationKey))
    (h : total_amount now kd.outputs = 0) :
    run_key now recipient kd = ([Line.no_funds kd.address], none, false)
    ∧ send_all_run now recipient (Except.ok kd :: rest)
        = (Line.no_funds kd.address :: (send_all_run now recipient rest).1,
           (send_all_run now recipient rest).2) := by
  have h1 : run_key now recipient kd = ([Line.no_funds kd.address], none, false) := by
    rw [run_key]
    simp [h]
  refine ⟨h1, ?_⟩
  rw [send_all_run, h1]
  rfl

/-- Witness for C3 at a key unit owning no outputs. -/
theorem zero_total_skips_witness :
    total_amount 100 ex0Key.outputs = 0
    ∧ run_key 100 "rec" ex0Key = ([Line.no_funds ex0Key.address], none, false) :=
  ⟨rfl, (zero_total_skips 100 "rec" ex0Key [] rfl).1⟩

/-- C4: For every balance mapping produced by the reporting flow, the
bucket timestamps are strictly ascending, and the cumulative column of the
derived view is monotonically non-decreasing, equals after the bucket at
index `k` the sum of the bucket values up to that index, and ends at the
total aggregate of all buckets. -/
theorem cumulative_view_spec (kos : List (List OutputResponse)) (k : Nat) :
    bmSorted (balances_of kos)
    ∧ ((with_cumulative (balances_of kos)).map (fun r => r.2.2)).Chain' (· ≤ ·)
    ∧ ((with_cumulative (balances_of kos)).map (fun r => r.2.2)).getD k
        (((balances_of kos).map (fun p => p.2)).sum)
        = (((balances_of kos).take (k + 1)).map (fun p => p.2)).sum
    ∧ ((with_cumulative (balances_of kos)).map (fun r => r.2.2)).getLastD 0
        = ((balances_of kos).map (fun p => p.2)).sum := by
  refine ⟨balances_of_sorted kos, ?_, ?_, ?_⟩
  · rw [with_cumulative_eq]
    exact (cumul_from_chain (balances_of kos) 0).1
  · rw [with_cumulative_eq]
    have := cumul_from_map_getD (balances_of kos) 0 k
    rwa [Nat.zero_add, Nat.zero_add] at this
  · rw [with_cumulative_eq, cumul_from_getLastD (balances_of kos) 0 0]
    by_cases h : (balances_of kos).isEmpty
    · rw [if_pos h, List.isEmpty_iff.mp h]
      rfl
    · rw [if_neg h, Nat.zero_add]

/-- C5: For every sequence of (output, metadata) pairs and every
permutation of it, aggregation over the permuted sequence yields the same
consolidation total and the same reporting bucket mapping as aggregation
over the original sequence. -/
theorem aggregation_perm_invariant (now : Nat) (l l' : List OutputResponse)
    (h : l.Perm l') :
    total_amount now l = total_amount now l'
    ∧ process_outputs [] l = process_outputs [] l' := by
  constructor
  · rw [total_amount_eq_spendable_sum, total_amount_eq_spendable_sum]
    exact ((h.filter (fun o => immediately_spendable now o)).map
      (fun o => o.output.amount)).sum_eq
  · exact process_outputs_perm l l' h

/-- Witness for C5 at a two-output sequence and its swap. -/
theorem aggregation_perm_invariant_witness :
    [exOutput, exOutputLocked].Perm [exOutputLocked, exOutput]
    ∧ total_amount 100 [exOutput, exOutputLocked]
        = total_amount 100 [exOutputLocked, exOutput]
    ∧ process_outputs [] [exOutput, exOutputLocked]
        = process_outputs [] [exOutputLocked, exOutput] := by
  have hp : [exOutput, exOutputLocked].Perm [exOutputLocked, exOutput] :=
    List.Perm.swap exOutputLocked exOutput []
  exact ⟨hp, (aggregation_perm_invariant 100 _ _ hp).1,
    (aggregation_perm_invariant 100 _ _ hp).2⟩

/-- C6: In the reporting flow, when the fetched rate table has no entry for
the requested currency code, the flow fails with the rate-unavailable error
naming the currency, and no table (not even a partial one) is produced. -/
theorem rate_missing_fails (keys : List (Except String (List OutputResponse)))
    (rates : List (String × Float)) (currency : String) (bal : List (Nat × Nat))
    (hk : process_keys keys [] = Except.ok bal)
    (hr : rates.lookup currency = none) :
    timed_balance_run keys rates currency
      = Except.error ("price in " ++ squote ++ currency ++ squote ++ " not found")
    ∧ ∀ out, timed_balance_run keys rates currency ≠ Except.ok out := by
  have h1 : timed_balance_run keys rates currency
      = Except.error ("price in " ++ squote ++ currency ++ squote ++ " not found") := by
    rw [timed_balance_run, hk, get_price, hr]
  refine ⟨h1, ?_⟩
  intro out hout
  rw [h1] at hout
  exact Except.noConfusion hout

/-- Witness for C6 at an empty key list and an empty rate table. -/
theorem rate_missing_fails_witness :
    process_keys [] [] = Except.ok []
    ∧ ([] : List (String × Float)).lookup "eur" = none
    ∧ timed_balance_run [] [] "eur"
        = Except.error ("price in " ++ squote ++ "eur" ++ squote ++ " not found") :=
  ⟨rfl, rfl, (rate_missing_fails [] [] "eur" [] rfl rfl).1⟩

/-- C7 counterexample: in the reporting flow a failing first key unit
aborts the whole key loop — the run returns that key's error and the
second key unit's unspent 5,000,000-unit output is never aggregated, even
though processing the second key unit alone succeeds with a non-empty
mapping. -/
theorem key_failure_aborts_counterexample :
    process_keys [Except.error "key decode failed", Except.ok [exOutput]] []
      = Except.error "key decode failed"
    ∧ process_keys [Except.ok [exOutput]] []
      = Except.ok [(1690000000, 5000000)] :=
  ⟨rfl, rfl⟩

/-- C7 amended: in the reporting flow, a failure while processing one key
unit (e.g. a malformed private key) aborts the run at that key unit: the
first failing key's error is returned and the remaining key units are not
processed. -/
theorem key_failure_aborts (pre : List (Except String (List OutputResponse)))
    (e : String) (post : List (Except String (List OutputResponse)))
    (m : List (Nat × Nat))
    (h : ∀ x ∈ pre, ∃ os, x = Except.ok os) :
    process_keys (pre ++ Except.error e :: post) m = Except.error e := by
  induction pre generalizing m with
  | nil => rfl
  | cons x rest ih =>
    obtain ⟨os, rfl⟩ := h x (List.mem_cons_self x rest)
    rw [List.cons_append, process_keys]
    exact ih (process_outputs m os) (fun y hy => h y (List.mem_cons_of_mem _ hy))

/-- The succeeding key units surrounding the failing one in C7's witness. -/
def ex7Pre : List (Except String (List OutputResponse)) := [Except.ok [exOutput]]

/-- Witness for C7's amended statement: one succeeding key unit before the
failing one, one after. -/
theorem key_failure_aborts_witness :
    (∀ x ∈ ex7Pre, ∃ os, x = Except.ok os)
    ∧ process_keys (ex7Pre ++ Except.error "bad" :: ex7Pre) [] = Except.error "bad" := by
  have h : ∀ x ∈ ex7Pre, ∃ os, x = Except.ok os := by
    intro x hx
    rw [ex7Pre, List.mem_singleton] at hx
    exact ⟨[exOutput], hx⟩
  exact ⟨h, key_failure_aborts ex7Pre "bad" ex7Pre [] h⟩

/-- C8: In the consolidation eligibility check, an output whose time-lock
timestamp equals the reference time is classified as not locked (the lock
holds only while the timestamp is strictly greater than the reference
time), and expiration follows the same node-side convention (expired iff
the expiration timestamp is less than or equal to the reference time). -/
theorem boundary_convention (now : Nat) (uc : UnlockConditions) (o : Output) :
    (uc.timelock = some now → uc.is_time_locked now = false)
    ∧ (uc.is_time_locked now = true ↔ ∃ ts, uc.timelock = some ts ∧ now < ts)
    ∧ (uc.is_expired now = true ↔ ∃ ts, uc.expiration = some ts ∧ ts ≤ now)
    ∧ (o.unlock_conditions = some uc → uc.timelock = some now →
        output_locked now o = false)
    ∧ (o.unlock_conditions = some uc → uc.expiration = some now →
        output_expired now o = true) := by
  have htl : uc.timelock = some now → uc.is_time_locked now = false := by
    intro h
    rw [UnlockConditions.is_time_locked, h]
    simp
  refine ⟨htl, ?_, ?_, ?_, ?_⟩
  · rw [UnlockConditions.is_time_locked]
    cases h : uc.timelock with
    | none => simp
    | some ts => simp [h]
  · rw [UnlockConditions.is_expired]
    cases h : uc.expiration with
    | none => simp
    | some ts => simp [h]
  · intro ho h
    rw [output_locked, ho]
    show uc.is_time_locked now = false
    exact htl h
  · intro ho h
    rw [output_expired, ho]
    show uc.is_expired now = true
    rw [UnlockConditions.is_expired, h]
    simp

/-- Witness for C8 at reference time 100 and both timestamps equal to
100: the output is not locked but is expired. -/
theorem boundary_convention_witness :
    ex8UC.timelock = some 100
    ∧ ex8UC.expiration = some 100
    ∧ output_locked 100 ex8Output = false
    ∧ output_expired 100 ex8Output = true :=
  ⟨rfl, rfl, (boundary_convention 100 ex8UC ex8Output).2.2.2.1 rfl rfl,
    (boundary_convention 100 ex8UC ex8Output).2.2.2.2 rfl rfl⟩

/-- C9 counterexample: a successful consolidation prints three stdout
lines — the sending notice, the submitted block id, the included block id
— not exactly two as claimed. -/
theorem stdout_lines_counterexample :
    (run_key 100 "rec" ex9Key).2.1 = none
    ∧ (run_key 100 "rec" ex9Key).1.length = 3
    ∧ (run_key 100 "rec" ex9Key).1.length ≠ 2 :=
  ⟨rfl, rfl, by decide⟩

/-- C9 amended: in the consolidation flow, stdout carries exactly one line
per key for a "no funds" notice, and exactly three lines per successful
consolidation — the sending notice, then the submitted block id, then the
included block id, in that order; on a confirmation timeout the
already-printed sending and submission lines are preserved. -/
theorem stdout_lines (now : Nat) (recipient : String) (kd : ConsolidationKey) :
    (total_amount now kd.outputs = 0 →
       (run_key now recipient kd).1 = [Line.no_funds kd.address])
    ∧ (total_amount now kd.outputs ≠ 0 → ∀ bid, kd.block_result = Except.ok bid →
        ((kd.confirm_result = Except.ok () →
            run_key now recipient kd
              = ([Line.sending (total_amount now kd.outputs) kd.address recipient,
                  Line.block_sent bid, Line.block_included bid], none, true))
         ∧ ∀ e, kd.confirm_result = Except.error e →
            run_key now recipient kd
              = ([Line.sending (total_amount now kd.outputs) kd.address recipient,
                  Line.block_sent bid], some e, true))) := by
  constructor
  · intro h
    rw [run_key]
    simp [h]
  · intro h bid hb
    constructor
    · intro hc
      rw [run_key]
      simp only [if_neg h, hb, hc]
    · intro e hc
      rw [run_key]
      simp only [if_neg h, hb, hc]

/-- Witness for C9's amended statement: the successful run prints the
three lines in order; the timed-out run keeps the first two. -/
theorem stdout_lines_witness :
    run_key 100 "rec" ex9Key
      = ([Line.sending (total_amount 100 ex9Key.outputs) "addr" "rec",
          Line.block_sent "blk", Line.block_included "blk"], none, true)
    ∧ run_key 100 "rec" ex9KeyTO
      = ([Line.sending (total_amount 100 ex9KeyTO.outputs) "addr" "rec",
          Line.block_sent "blk"], some "timeout", true) :=
  ⟨((stdout_lines 100 "rec" ex9Key).2 (by decide) "blk" rfl).1 rfl,
    ((stdout_lines 100 "rec" ex9KeyTO).2 (by decide) "blk" rfl).2 "timeout" rfl⟩

/-- C10: In the consolidation flow, an unspent output that exposes no
unlock-conditions field at all is treated as neither time-locked nor
expired, and its amount is therefore included in the aggregated total. -/
theorem no_conditions_included (now : Nat) (os : List OutputResponse)
    (o : OutputResponse)
    (h1 : o.metadata.is_spent = false) (h2 : o.output.unlock_conditions = none) :
    output_locked now o.output = false
    ∧ output_expired now o.output = false
    ∧ total_amount now (os ++ [o]) = total_amount now os + o.output.amount := by
  have hl : output_locked now o.output = false := by
    rw [output_locked, h2]
    rfl
  have he : output_expired now o.output = false := by
    rw [output_expired, h2]
    rfl
  refine ⟨hl, he, ?_⟩
  have hsp : immediately_spendable now o = true := by
    rw [immediately_spendable, h1, hl, he]
    rfl
  rw [total_amount_eq_spendable_sum, total_amount_eq_spendable_sum,
    List.filter_append, List.map_append, List.sum_append]
  congr 1
  simp [hsp]

/-- Witness for C10 at the condition-free unspent 5,000,000-unit output. -/
theorem no_conditions_included_witness :
    exOutput.metadata.is_spent = false
    ∧ exOutput.output.unlock_conditions = none
    ∧ total_amount 100 ([exOutputLocked] ++ [exOutput])
        = total_amount 100 [exOutputLocked] + exOutput.output.amount :=
  ⟨rfl, rfl, (no_conditions_included 100 [exOutputLocked] exOutput rfl rfl).2.2⟩

end IotaPlayground
